import Mathlib

/-! sent (macOS port): configuration tables and drawing header

A shallow embedding of `config.def.h` (key codes, shortcut tables, colour
scheme, usable-screen fractions, font scale macro) and of the `Clr` part of
`drw.h`, followed by the properties established about them.
-/

namespace Sent

/-! ## config.def.h: key codes (lines 27-44) -/

def MAC_KEY_ESCAPE : Nat := 0x35
def MAC_KEY_Q : Nat := 0x0C
def MAC_KEY_R : Nat := 0x0F
def MAC_KEY_H : Nat := 0x04
def MAC_KEY_J : Nat := 0x26
def MAC_KEY_K : Nat := 0x28
def MAC_KEY_L : Nat := 0x25
def MAC_KEY_N : Nat := 0x2D
def MAC_KEY_P : Nat := 0x23
def MAC_KEY_SPACE : Nat := 0x31
def MAC_KEY_RETURN : Nat := 0x24
def MAC_KEY_DELETE : Nat := 0x33
def MAC_KEY_LEFT : Nat := 0x7B
def MAC_KEY_RIGHT : Nat := 0x7C
def MAC_KEY_DOWN : Nat := 0x7D
def MAC_KEY_UP : Nat := 0x7E
def MAC_KEY_PAGEUP : Nat := 0x74
def MAC_KEY_PAGEDOWN : Nat := 0x79

/-- The eighteen `MAC_KEY_*` constants, in the order of their `#define` lines. -/
def macKeys : List Nat :=
  [MAC_KEY_ESCAPE, MAC_KEY_Q, MAC_KEY_R, MAC_KEY_H, MAC_KEY_J, MAC_KEY_K,
   MAC_KEY_L, MAC_KEY_N, MAC_KEY_P, MAC_KEY_SPACE, MAC_KEY_RETURN, MAC_KEY_DELETE,
   MAC_KEY_LEFT, MAC_KEY_RIGHT, MAC_KEY_DOWN, MAC_KEY_UP, MAC_KEY_PAGEUP,
   MAC_KEY_PAGEDOWN]

/-! ## config.def.h: mouse buttons (lines 47-52) -/

/-- The enumerators of `MacMouseButton`. -/
inductive MacMouseButton where
  | MacMouseLeft
  | MacMouseRight
  | MacMouseScrollUp
  | MacMouseScrollDown
  deriving DecidableEq, Repr

/-- The integer value the enum declaration gives each enumerator. -/
def MacMouseButton.code : MacMouseButton → Nat
  | .MacMouseLeft => 0
  | .MacMouseRight => 1
  | .MacMouseScrollUp => 10
  | .MacMouseScrollDown => 11

/-- All enumerators of `MacMouseButton`, in declaration order. -/
def allMouseButtons : List MacMouseButton :=
  [.MacMouseLeft, .MacMouseRight, .MacMouseScrollUp, .MacMouseScrollDown]

/-! ## The table entry types

`Shortcut`, `Mousekey`, `Arg` and the action functions are declared in the
viewer's main translation unit, which `config.def.h` is included into. -/

/-- Modelled from the spec: the action functions `advance`, `quit`, `reload`
that the tables reference are defined outside `config.def.h`; a table entry
holds a reference to one of them ("a function reference"). -/
inductive Func where
  | advance
  | quit
  | reload
  deriving DecidableEq, Repr

/-- Modelled from the spec: the `Arg` union is declared outside `config.def.h`;
it is "a single-word argument (either an integer delta or empty)". The
initialiser `{.i = n}` sets the integer member and `{0}` zero-initialises it. -/
structure Arg where
  i : Int
  deriving DecidableEq, Repr

/-- Modelled from the spec: the `Shortcut` struct is declared outside
`config.def.h`; it is the "association of an input key code with a function
reference and a single-word argument", in the column order of the table. -/
structure Shortcut where
  keycode : Nat
  func : Func
  arg : Arg
  deriving DecidableEq, Repr

/-- Modelled from the spec: the `Mousekey` struct is declared outside
`config.def.h`; "same association keyed by a mouse-button/wheel-direction
identifier instead of a key code". -/
structure Mousekey where
  button : Nat
  func : Func
  arg : Arg
  deriving DecidableEq, Repr

/-! ## config.def.h: the tables (lines 54-82) -/

def mshortcuts : List Mousekey :=
  [ ⟨MacMouseButton.MacMouseLeft.code, .advance, ⟨1⟩⟩,
    ⟨MacMouseButton.MacMouseRight.code, .advance, ⟨-1⟩⟩,
    ⟨MacMouseButton.MacMouseScrollUp.code, .advance, ⟨-1⟩⟩,
    ⟨MacMouseButton.MacMouseScrollDown.code, .advance, ⟨1⟩⟩ ]

def shortcuts : List Shortcut :=
  [ ⟨MAC_KEY_ESCAPE, .quit, ⟨0⟩⟩,
    ⟨MAC_KEY_Q, .quit, ⟨0⟩⟩,
    ⟨MAC_KEY_RIGHT, .advance, ⟨1⟩⟩,
    ⟨MAC_KEY_LEFT, .advance, ⟨-1⟩⟩,
    ⟨MAC_KEY_RETURN, .advance, ⟨1⟩⟩,
    ⟨MAC_KEY_SPACE, .advance, ⟨1⟩⟩,
    ⟨MAC_KEY_DELETE, .advance, ⟨-1⟩⟩,
    ⟨MAC_KEY_L, .advance, ⟨1⟩⟩,
    ⟨MAC_KEY_H, .advance, ⟨-1⟩⟩,
    ⟨MAC_KEY_J, .advance, ⟨1⟩⟩,
    ⟨MAC_KEY_K, .advance, ⟨-1⟩⟩,
    ⟨MAC_KEY_DOWN, .advance, ⟨1⟩⟩,
    ⟨MAC_KEY_UP, .advance, ⟨-1⟩⟩,
    ⟨MAC_KEY_PAGEDOWN, .advance, ⟨1⟩⟩,
    ⟨MAC_KEY_PAGEUP, .advance, ⟨-1⟩⟩,
    ⟨MAC_KEY_N, .advance, ⟨1⟩⟩,
    ⟨MAC_KEY_P, .advance, ⟨-1⟩⟩,
    ⟨MAC_KEY_R, .reload, ⟨0⟩⟩ ]

/-! ## Table lookup -/

/-- Modelled from the spec: the scan loop over `shortcuts` belongs to the
input layer, which is not part of `config.def.h`. "Lookup is linear scan over
a fixed table; first structurally matching entry fires." -/
def lookupKey : List Shortcut → Nat → Option Shortcut
  | [], _ => none
  | s :: rest, key => if s.keycode = key then some s else lookupKey rest key

/-- Modelled from the spec: the scan loop over `mshortcuts` belongs to the
input layer, which is not part of `config.def.h`; same linear first-match scan,
keyed by the button identifier. -/
def lookupButton : List Mousekey → Nat → Option Mousekey
  | [], _ => none
  | m :: rest, b => if m.button = b then some m else lookupButton rest b

/-- The entries of a shortcut table whose key code equals `key` (any match). -/
def matchesKey (table : List Shortcut) (key : Nat) : List Shortcut :=
  table.filter (fun s => decide (s.keycode = key))

/-- The entries of a mouse table whose button equals `b` (any match). -/
def matchesButton (table : List Mousekey) (b : Nat) : List Mousekey :=
  table.filter (fun m => decide (m.button = b))

/-! ## config.def.h: colour scheme (lines 15-18) and drw.h scheme indices -/

def colors : List String :=
  [ "#000000",
    "#FFFFFF" ]

def ColFg : Nat := 0
def ColBg : Nat := 1

/-- The value of one hexadecimal digit, if the character is one. -/
def hexval (c : Char) : Option Nat :=
  if '0' ≤ c ∧ c ≤ '9' then some (c.toNat - '0'.toNat)
  else if 'a' ≤ c ∧ c ≤ 'f' then some (c.toNat - 'a'.toNat + 10)
  else if 'A' ≤ c ∧ c ≤ 'F' then some (c.toNat - 'A'.toNat + 10)
  else none

/-- A hexadecimal digit: `0-9`, `a-f` or `A-F`. -/
def isHexDigit (c : Char) : Bool :=
  ('0' ≤ c && c ≤ '9') || ('a' ≤ c && c ≤ 'f') || ('A' ≤ c && c ≤ 'F')

/-- A well-formed hex colour string: `#` followed by exactly six hex digits. -/
def isHexColor (s : String) : Bool :=
  match s.data with
  | [] => false
  | c :: ds => c == '#' && ds.length == 6 && ds.all isHexDigit

/-- The byte written by two hex digits, high digit first. -/
def hexByte (hi lo : Char) : Option Nat := do
  let h ← hexval hi
  let l ← hexval lo
  pure (16 * h + l)

/-! ### Reference reading and writing of hex colours

These do not use `hexval` or `hexByte`: a digit is read and written through
the table of the sixteen digit characters. -/

/-- The sixteen hexadecimal digit characters, in order of value. -/
def hexDigits : List Char := "0123456789abcdef".data

/-- The digit character written for the value `v` (for `v < 16`). -/
def digitChar (v : Nat) : Char := hexDigits.getD v '?'

/-- The value a digit character stands for: its position in `hexDigits`,
letters taken case-insensitively. -/
def digitValue (c : Char) : Nat := hexDigits.indexOf c.toLower

/-- The two digit characters that write the byte `n`, high digit first. -/
def toHex2 (n : Nat) : List Char := [digitChar (n / 16), digitChar (n % 16)]

/-- The string `#rrggbb` that writes three bytes, in lower-case digits. -/
def formatColor (r g b : Nat) : String :=
  String.mk ('#' :: (toHex2 r ++ toHex2 g ++ toHex2 b))

/-- The string with every letter in lower case. -/
def lowercase (s : String) : String := String.mk (s.data.map Char.toLower)

/-- The red, green and blue bytes that a `#RRGGBB` string spells, read
through the digit table. -/
def rgbBytes (s : String) : Option (Nat × Nat × Nat) :=
  match s.data with
  | [_, r1, r0, g1, g0, b1, b0] =>
    some (16 * digitValue r1 + digitValue r0,
          16 * digitValue g1 + digitValue g0,
          16 * digitValue b1 + digitValue b0)
  | _ => none

/-! ## drw.h: `Clr` (lines 23-26) and the colour constructors (lines 48-49) -/

/-- The `Clr` struct of `drw.h`. The `CGFloat` components are kept as exact
rationals; `pixel` is the packed RGB word. -/
structure Clr where
  r : ℚ
  g : ℚ
  b : ℚ
  a : ℚ
  pixel : Nat
  deriving DecidableEq

/-- Modelled from the spec: the body of `drw_clr_create` is not in `drw.h`,
which only declares it. It "parses a color specification string (e.g., hex
RGB) into a normalized color; fails on malformed input"; a colour is "a
normalized RGBA color plus a legacy packed-pixel value" ("packed RGB for
compatibility"). Each byte is normalised by 255, the colour is opaque, and the
pixel packs the bytes as `0xRRGGBB`. Failure is `none`. -/
def drw_clr_create (clrname : String) : Option Clr :=
  match clrname.data with
  | ['#', r1, r0, g1, g0, b1, b0] => do
    let r ← hexByte r1 r0
    let g ← hexByte g1 g0
    let b ← hexByte b1 b0
    pure ⟨(r : ℚ) / 255, (g : ℚ) / 255, (b : ℚ) / 255, 1, r * 65536 + g * 256 + b⟩
  | _ => none

/-- Modelled from the spec: the body of `drw_scm_create` is not in `drw.h`,
which only declares it. It "builds a color scheme array by parsing each name;
fails if any entry is malformed". -/
def drw_scm_create : List String → Option (List Clr)
  | [] => some []
  | name :: rest => do
    let c ← drw_clr_create name
    let cs ← drw_scm_create rest
    pure (c :: cs)

/-- The red byte stored in a packed pixel. -/
def pixelRed (p : Nat) : Nat := (p / 65536) % 256
/-- The green byte stored in a packed pixel. -/
def pixelGreen (p : Nat) : Nat := (p / 256) % 256
/-- The blue byte stored in a packed pixel. -/
def pixelBlue (p : Nat) : Nat := p % 256

/-! ## config.def.h: `float` constants (lines 20-24)

A positive binary floating-point value is kept exactly, as a significand and
a power of two. A decimal literal is first rounded to `double` (53-bit
significand) and the initialiser then converts it to `float` (24 bits), both
to nearest, ties to even. The constants here are far from the subnormal and
overflow ranges, so the exponent is left unbounded. -/

/-- The value `mant * 2 ^ exp`. -/
structure BinFloat where
  mant : Nat
  exp : Int
  deriving DecidableEq, Repr

/-- The rational number a binary float denotes. -/
def BinFloat.toRat (f : BinFloat) : ℚ := (f.mant : ℚ) * (2 : ℚ) ^ f.exp

/-- Number of halvings that bring `n` below 2, at most `fuel` of them. -/
def log2Aux : Nat → Nat → Nat
  | 0, _ => 0
  | fuel + 1, n => if n < 2 then 0 else log2Aux fuel (n / 2) + 1

/-- The position of the highest set bit of `n` (0 for `n < 2`). -/
def ilog2 (n : Nat) : Nat := log2Aux n n

/-- Exponent `e` with `2^e ≤ num/den < 2^(e+1)`, for `num, den > 0`. -/
def floorLog2 (num den : Nat) : Int :=
  let e0 : Int := (ilog2 num : Int) - (ilog2 den : Int)
  let below : Bool :=
    if 0 ≤ e0 then decide (num < den * 2 ^ e0.toNat)
    else decide (num * 2 ^ (-e0).toNat < den)
  if below then e0 - 1 else e0

/-- Round `num / den` (positive) to a `p`-bit significand, to nearest, ties
to even. -/
def roundNearestEven (p : Nat) (num den : Nat) : BinFloat :=
  if num = 0 then ⟨0, 0⟩ else
  let e := floorLog2 num den
  let s : Int := (p : Int) - 1 - e
  let n := if 0 ≤ s then num * 2 ^ s.toNat else num
  let d := if 0 ≤ s then den else den * 2 ^ (-s).toNat
  let q := n / d
  let r := n % d
  let m := if 2 * r < d then q else if d < 2 * r then q + 1
           else if q % 2 = 0 then q else q + 1
  ⟨m, -s⟩

/-- A decimal literal `digits / 10^scale` as a C `double`. -/
def doubleLit (digits scale : Nat) : BinFloat :=
  roundNearestEven 53 digits (10 ^ scale)

/-- Conversion of a `double` value to `float`. -/
def toFloat (f : BinFloat) : BinFloat :=
  if 0 ≤ f.exp then roundNearestEven 24 (f.mant * 2 ^ f.exp.toNat) 1
  else roundNearestEven 24 f.mant (2 ^ (-f.exp).toNat)

def linespacing : BinFloat := toFloat (doubleLit 14 1)
def usablewidth : BinFloat := toFloat (doubleLit 75 2)
def usableheight : BinFloat := toFloat (doubleLit 75 2)

/-! ## config.def.h: font scales (lines 12-13) -/

def NUMFONTSCALES : Nat := 42

/-- `FONTSZ(x)` is `(int)(10.0 * powf(1.1288, (x)))`, with `powf` and the
product taken in exact arithmetic; the cast truncates, which on these
positive values is the floor. -/
def FONTSZ (x : Nat) : Int := ⌊(10 : ℚ) * (11288 / 10000 : ℚ) ^ x⌋

/-- The same quantity by integer division, for evaluation. -/
def fontszNat (x : Nat) : Nat := 10 * 11288 ^ x / 10000 ^ x

/-! ## Generic facts about first-match lookup -/

theorem lookupKey_eq_none (table : List Shortcut) (key : Nat)
    (h : ∀ s ∈ table, s.keycode ≠ key) : lookupKey table key = none := by
  induction table with
  | nil => rfl
  | cons s rest ih =>
    have hs : s.keycode ≠ key := h s (List.mem_cons_self _ _)
    simp only [lookupKey, if_neg hs]
    exact ih (fun t ht => h t (List.mem_cons_of_mem _ ht))

theorem lookupKey_of_nodup (table : List Shortcut)
    (hnd : (table.map Shortcut.keycode).Nodup) (s : Shortcut) (hs : s ∈ table) :
    lookupKey table s.keycode = some s := by
  induction table with
  | nil => cases hs
  | cons t rest ih =>
    rw [List.map_cons, List.nodup_cons] at hnd
    rcases List.mem_cons.mp hs with rfl | hmem
    · simp [lookupKey]
    · have hne : t.keycode ≠ s.keycode := by
        intro heq
        exact hnd.1 (heq ▸ List.mem_map_of_mem _ hmem)
      simp only [lookupKey, if_neg hne]
      exact ih hnd.2 hmem

theorem matchesKey_length_le_one (table : List Shortcut)
    (hnd : (table.map Shortcut.keycode).Nodup) (key : Nat) :
    (matchesKey table key).length ≤ 1 := by
  induction table with
  | nil => simp [matchesKey]
  | cons t rest ih =>
    rw [List.map_cons, List.nodup_cons] at hnd
    have ihr := ih hnd.2
    unfold matchesKey at ihr ⊢
    by_cases hk : t.keycode = key
    · have hnone : rest.filter (fun s => decide (s.keycode = key)) = [] := by
        rw [List.filter_eq_nil_iff]
        intro s hs
        have : s.keycode ≠ key := by
          intro heq
          exact hnd.1 (by rw [hk, ← heq]; exact List.mem_map_of_mem _ hs)
        simpa using this
      simp [List.filter_cons, hk, hnone]
    · simp [List.filter_cons, hk]
      simpa using ihr

theorem shortcuts_keycodes_nodup : (shortcuts.map Shortcut.keycode).Nodup := by
  decide

/-! ## Generic facts about hex digits and font sizes -/

theorem char_le_iff (a b : Char) : a ≤ b ↔ a.toNat ≤ b.toNat := Iff.rfl

/-- On a hex digit the parser's `hexval` agrees with the digit table: it
returns the digit's table value, which is below 16 and is written back as the
lower-case form of the digit. -/
theorem hexval_spec (c : Char) (h : isHexDigit c = true) :
    hexval c = some (digitValue c) ∧ digitValue c < 16 ∧
    digitChar (digitValue c) = c.toLower := by
  simp only [isHexDigit, Bool.or_eq_true, Bool.and_eq_true, decide_eq_true_eq,
    char_le_iff] at h
  have e0 : '0'.toNat = 48 := rfl
  have e9 : '9'.toNat = 57 := rfl
  have ea : 'a'.toNat = 97 := rfl
  have ef : 'f'.toNat = 102 := rfl
  have eA : 'A'.toNat = 65 := rfl
  have eF : 'F'.toNat = 70 := rfl
  rw [e0, e9, ea, ef, eA, eF] at h
  have hc : c = Char.ofNat c.toNat := (Char.ofNat_toNat c).symm
  generalize c.toNat = n at h hc
  subst hc
  rcases h with (⟨h1, h2⟩ | ⟨h1, h2⟩) | ⟨h1, h2⟩ <;> interval_cases n <;> decide

theorem hexByte_spec (hi lo : Char) (h1 : isHexDigit hi = true)
    (h2 : isHexDigit lo = true) :
    hexByte hi lo = some (16 * digitValue hi + digitValue lo) ∧
    16 * digitValue hi + digitValue lo < 256 := by
  obtain ⟨ha, hla, _⟩ := hexval_spec hi h1
  obtain ⟨hb, hlb, _⟩ := hexval_spec lo h2
  refine ⟨?_, by omega⟩
  simp [hexByte, ha, hb]

theorem toHex2_spec (hi lo : Char) (h1 : isHexDigit hi = true)
    (h2 : isHexDigit lo = true) :
    toHex2 (16 * digitValue hi + digitValue lo) = [hi.toLower, lo.toLower] := by
  obtain ⟨_, hla, hca⟩ := hexval_spec hi h1
  obtain ⟨_, hlb, hcb⟩ := hexval_spec lo h2
  have e1 : (16 * digitValue hi + digitValue lo) / 16 = digitValue hi := by omega
  have e2 : (16 * digitValue hi + digitValue lo) % 16 = digitValue lo := by omega
  simp only [toHex2, e1, e2, hca, hcb]

theorem pixel_bytes (r g b : Nat) (hr : r < 256) (hg : g < 256) (hb : b < 256) :
    pixelRed (r * 65536 + g * 256 + b) = r ∧
    pixelGreen (r * 65536 + g * 256 + b) = g ∧
    pixelBlue (r * 65536 + g * 256 + b) = b ∧
    r * 65536 + g * 256 + b < 2 ^ 24 := by
  unfold pixelRed pixelGreen pixelBlue
  refine ⟨by omega, by omega, by omega, by norm_num; omega⟩

theorem unit_fraction_bounds (n : Nat) (h : n < 256) :
    (0 : ℚ) ≤ (n : ℚ) / 255 ∧ (n : ℚ) / 255 ≤ 1 := by
  have h1 : (n : ℚ) ≤ 255 := by exact_mod_cast Nat.lt_succ_iff.mp h
  have h0 : (0 : ℚ) ≤ (n : ℚ) := Nat.cast_nonneg n
  constructor
  · positivity
  · rw [div_le_one (by norm_num)]
    exact h1

theorem FONTSZ_eq_fontszNat (x : Nat) : FONTSZ x = (fontszNat x : Int) := by
  unfold FONTSZ fontszNat
  have h : (10 : ℚ) * (11288 / 10000 : ℚ) ^ x
      = ((10 * 11288 ^ x : ℕ) : ℚ) / ((10000 ^ x : ℕ) : ℚ) := by
    push_cast
    rw [div_pow]
    ring
  rw [h, Rat.floor_natCast_div_natCast]
  norm_cast

theorem fontszNat_step : ∀ x : Fin 41, fontszNat x < fontszNat (x + 1) := by
  decide

theorem fontszNat_pos : ∀ x : Fin 42, 0 < fontszNat x := by
  decide

theorem fontszNat_strictMono (x y : Nat) (hxy : x < y) (hy : y < 42) :
    fontszNat x < fontszNat y := by
  induction y with
  | zero => omega
  | succ n ih =>
    have hstep : fontszNat n < fontszNat (n + 1) := fontszNat_step ⟨n, by omega⟩
    rcases Nat.lt_succ_iff_lt_or_eq.mp hxy with hlt | rfl
    · exact lt_trans (ih hlt (by omega)) hstep
    · exact hstep

theorem fontszNat_margin : ∀ x : Fin 42, x.val ≠ 0 →
    fontszNat x * (10000 ^ x.val * 16384) ≤ 10 * 11288 ^ x.val * 16383 ∧
    10 * 11288 ^ x.val * 16385 < (fontszNat x + 1) * (10000 ^ x.val * 16384) := by
  decide

/-- The exact-arithmetic value of `FONTSZ` is insensitive to rounding in
`powf` and in the product: for `1 ≤ x ≤ 41`, every value within relative
error `2^-14` of `10 * 1.1288^x` truncates to the same integer. (At `x = 0`
the product is exactly 10.) -/
theorem FONTSZ_stable_under_rounding (x : Nat) (hx0 : 0 < x) (hx : x < NUMFONTSCALES)
    (v : ℚ)
    (hlo : 10 * (11288 / 10000 : ℚ) ^ x * (16383 / 16384) ≤ v)
    (hhi : v ≤ 10 * (11288 / 10000 : ℚ) ^ x * (16385 / 16384)) :
    ⌊v⌋ = FONTSZ x := by
  have hN : NUMFONTSCALES = 42 := rfl
  obtain ⟨h1, h2⟩ := fontszNat_margin ⟨x, by omega⟩ (by simpa using hx0.ne')
  simp only [] at h1 h2
  have h1q : (fontszNat x : ℚ) * (10000 ^ x * 16384) ≤ 10 * 11288 ^ x * 16383 := by
    exact_mod_cast h1
  have h2q : (10 : ℚ) * 11288 ^ x * 16385 < ((fontszNat x : ℚ) + 1) * (10000 ^ x * 16384) := by
    exact_mod_cast h2
  have hpos : (0 : ℚ) < 10000 ^ x * 16384 := by positivity
  have klo : 10 * (11288 / 10000 : ℚ) ^ x * (16383 / 16384)
      = (10 * 11288 ^ x * 16383) / (10000 ^ x * 16384) := by
    rw [div_pow]; field_simp
  have khi : 10 * (11288 / 10000 : ℚ) ^ x * (16385 / 16384)
      = (10 * 11288 ^ x * 16385) / (10000 ^ x * 16384) := by
    rw [div_pow]; field_simp
  rw [FONTSZ_eq_fontszNat, Int.floor_eq_iff]
  constructor
  · have : (fontszNat x : ℚ) ≤ (10 * 11288 ^ x * 16383) / (10000 ^ x * 16384) := by
      rw [le_div_iff₀ hpos]; exact h1q
    calc (((fontszNat x : ℤ) : ℚ)) = (fontszNat x : ℚ) := by norm_cast
      _ ≤ _ := this
      _ = _ := klo.symm
      _ ≤ v := hlo
  · have : (10 * 11288 ^ x * 16385) / (10000 ^ x * 16384) < (fontszNat x : ℚ) + 1 := by
      rw [div_lt_iff₀ hpos]; exact h2q
    calc v ≤ _ := hhi
      _ = _ := khi
      _ < (fontszNat x : ℚ) + 1 := this
      _ = (((fontszNat x : ℤ) : ℚ)) + 1 := by norm_cast

/-- The `float` stored for `linespacing` is within half a unit in the last
place (`2^-24` at this magnitude) of the decimal literal 1.4. -/
theorem linespacing_rounding_error :
    |linespacing.toRat - 14 / 10| ≤ 1 / 2 ^ 24 := by
  have hl : linespacing = ⟨11744051, -23⟩ := by decide
  rw [hl, abs_le]
  constructor <;> norm_num [BinFloat.toRat]

/-! ## Properties -/

/-- C1: scanning `shortcuts` for key code 0x7C (right arrow) yields the entry
bound to `advance` with argument +1, and scanning for 0x35 (escape) yields the
entry bound to `quit`. -/
theorem C1_lookup_right_and_escape :
    MAC_KEY_RIGHT = 0x7C ∧ MAC_KEY_ESCAPE = 0x35 ∧
    lookupKey shortcuts 0x7C = some ⟨0x7C, Func.advance, ⟨1⟩⟩ ∧
    lookupKey shortcuts 0x35 = some ⟨0x35, Func.quit, ⟨0⟩⟩ := by
  decide

/-- C2: key codes are unique within `shortcuts`: entries at distinct indices
have distinct key codes; hence for every key code at most one entry matches,
and whichever entry matches is the one the first-match scan returns. -/
theorem C2_keycodes_unique :
    (∀ i j : Fin shortcuts.length, i ≠ j →
      (shortcuts.get i).keycode ≠ (shortcuts.get j).keycode) ∧
    (∀ key : Nat, (matchesKey shortcuts key).length ≤ 1) ∧
    (∀ (key : Nat) (s : Shortcut), s ∈ shortcuts → s.keycode = key →
      lookupKey shortcuts key = some s) := by
  refine ⟨?_, ?_, ?_⟩
  · intro i j hij heq
    apply hij
    have hinj := List.nodup_iff_injective_get.mp shortcuts_keycodes_nodup
    have hlen : (shortcuts.map Shortcut.keycode).length = shortcuts.length :=
      List.length_map _ _
    have := @hinj ⟨i.1, by rw [hlen]; exact i.2⟩ ⟨j.1, by rw [hlen]; exact j.2⟩
      (by simpa using heq)
    exact Fin.ext (by simpa using congrArg Fin.val this)
  · exact matchesKey_length_le_one shortcuts shortcuts_keycodes_nodup
  · intro key s hs hk
    rw [← hk]
    exact lookupKey_of_nodup shortcuts shortcuts_keycodes_nodup s hs

/-- Witness for C2 at indices 0 and 2 and at the right-arrow entry. -/
theorem C2_keycodes_unique_witness :
    (shortcuts.get ⟨0, by decide⟩).keycode ≠ (shortcuts.get ⟨2, by decide⟩).keycode ∧
    lookupKey shortcuts 0x7C = some ⟨MAC_KEY_RIGHT, Func.advance, ⟨1⟩⟩ :=
  ⟨C2_keycodes_unique.1 ⟨0, by decide⟩ ⟨2, by decide⟩ (by decide),
   C2_keycodes_unique.2.2 0x7C ⟨MAC_KEY_RIGHT, Func.advance, ⟨1⟩⟩ (by decide) (by decide)⟩

/-- C3: every entry of `shortcuts` and of `mshortcuts` is either `advance`
with delta +1 or -1, or `quit`/`reload` with argument 0; so no entry binds
`advance` with delta 0 and none binds `quit`/`reload` with a non-zero
argument. -/
theorem C3_entries_are_of_two_kinds :
    (∀ s ∈ shortcuts,
      ((s.func = Func.advance ∧ (s.arg.i = 1 ∨ s.arg.i = -1)) ∨
       ((s.func = Func.quit ∨ s.func = Func.reload) ∧ s.arg.i = 0)) ∧
      ¬ (s.func = Func.advance ∧ s.arg.i = 0) ∧
      ¬ ((s.func = Func.quit ∨ s.func = Func.reload) ∧ s.arg.i ≠ 0)) ∧
    (∀ m ∈ mshortcuts,
      ((m.func = Func.advance ∧ (m.arg.i = 1 ∨ m.arg.i = -1)) ∨
       ((m.func = Func.quit ∨ m.func = Func.reload) ∧ m.arg.i = 0)) ∧
      ¬ (m.func = Func.advance ∧ m.arg.i = 0) ∧
      ¬ ((m.func = Func.quit ∨ m.func = Func.reload) ∧ m.arg.i ≠ 0)) := by
  decide

/-- Witness for C3 at the escape entry and at the left-button entry. -/
theorem C3_entries_are_of_two_kinds_witness :
    (((Func.quit = Func.advance ∧ ((0 : Int) = 1 ∨ (0 : Int) = -1)) ∨
       ((Func.quit = Func.quit ∨ Func.quit = Func.reload) ∧ (0 : Int) = 0)) ∧
      ¬ (Func.quit = Func.advance ∧ (0 : Int) = 0) ∧
      ¬ ((Func.quit = Func.quit ∨ Func.quit = Func.reload) ∧ (0 : Int) ≠ 0)) ∧
    (((Func.advance = Func.advance ∧ ((1 : Int) = 1 ∨ (1 : Int) = -1)) ∨
       ((Func.advance = Func.quit ∨ Func.advance = Func.reload) ∧ (1 : Int) = 0)) ∧
      ¬ (Func.advance = Func.advance ∧ (1 : Int) = 0) ∧
      ¬ ((Func.advance = Func.quit ∨ Func.advance = Func.reload) ∧ (1 : Int) ≠ 0)) :=
  ⟨C3_entries_are_of_two_kinds.1 ⟨MAC_KEY_ESCAPE, Func.quit, ⟨0⟩⟩ (by decide),
   C3_entries_are_of_two_kinds.2 ⟨0, Func.advance, ⟨1⟩⟩ (by decide)⟩

/-- C4: `colors` has exactly two entries; the scheme indices are `ColFg = 0`
and `ColBg = 1`, distinct and in bounds; `colors[ColFg]` is the foreground
"#000000" and `colors[ColBg]` is the background "#FFFFFF". -/
theorem C4_color_scheme_two_entries :
    colors.length = 2 ∧ ColFg = 0 ∧ ColBg = 1 ∧ ColFg ≠ ColBg ∧
    ColFg < colors.length ∧ ColBg < colors.length ∧
    colors.get? ColFg = some "#000000" ∧ colors.get? ColBg = some "#FFFFFF" := by
  decide

/-- C5: every entry of `colors` is a well-formed hex colour string, a `#`
followed by exactly six hexadecimal digits; so parsing each entry succeeds and
building the scheme from `colors` does not fail. -/
theorem C5_colors_are_hex_strings :
    (∀ s ∈ colors,
      isHexColor s = true ∧
      (∃ ds : List Char, s.data = '#' :: ds ∧ ds.length = 6 ∧
        ∀ d ∈ ds, isHexDigit d = true) ∧
      (drw_clr_create s).isSome = true) ∧
    (drw_scm_create colors).isSome = true := by
  refine ⟨?_, by decide⟩
  intro s hs
  have hcases : s = "#000000" ∨ s = "#FFFFFF" := by
    simpa [colors] using hs
  rcases hcases with rfl | rfl
  · exact ⟨by decide, ⟨['0', '0', '0', '0', '0', '0'], rfl, rfl, by decide⟩, by decide⟩
  · exact ⟨by decide, ⟨['F', 'F', 'F', 'F', 'F', 'F'], rfl, rfl, by decide⟩, by decide⟩

/-- Witness for C5 at the background colour. -/
theorem C5_colors_are_hex_strings_witness :
    isHexColor "#FFFFFF" = true ∧
    (∃ ds : List Char, "#FFFFFF".data = '#' :: ds ∧ ds.length = 6 ∧
      ∀ d ∈ ds, isHexDigit d = true) ∧
    (drw_clr_create "#FFFFFF").isSome = true :=
  C5_colors_are_hex_strings.1 "#FFFFFF" (by decide)

/-- C6: for every valid hex colour string, `drw_clr_create` succeeds with a
`Clr` whose components r, g, b, a lie in [0,1] and whose packed `pixel`
round-trips the RGB bytes of the string: the bytes stored in the pixel are the
bytes the string spells (read through the digit table, not through the
parser), writing them back as `#rrggbb` gives the input string in lower case,
and the components are those same bytes normalised by 255. -/
theorem C6_clr_create_normalised_roundtrip (s : String) (h : isHexColor s = true) :
    ∃ c : Clr,
      drw_clr_create s = some c ∧
      (0 ≤ c.r ∧ c.r ≤ 1) ∧ (0 ≤ c.g ∧ c.g ≤ 1) ∧
      (0 ≤ c.b ∧ c.b ≤ 1) ∧ (0 ≤ c.a ∧ c.a ≤ 1) ∧
      c.pixel < 2 ^ 24 ∧
      rgbBytes s = some (pixelRed c.pixel, pixelGreen c.pixel, pixelBlue c.pixel) ∧
      formatColor (pixelRed c.pixel) (pixelGreen c.pixel) (pixelBlue c.pixel)
        = lowercase s ∧
      c.r * 255 = pixelRed c.pixel ∧ c.g * 255 = pixelGreen c.pixel ∧
      c.b * 255 = pixelBlue c.pixel := by
  unfold isHexColor at h
  rcases hd : s.data with _ | ⟨c0, ds⟩
  · rw [hd] at h; cases h
  rw [hd] at h
  simp only [Bool.and_eq_true, beq_iff_eq, List.all_eq_true] at h
  obtain ⟨⟨hc0, hlen⟩, hall⟩ := h
  subst hc0
  match ds, hlen, hall, hd with
  | [r1, r0, g1, g0, b1, b0], _, hall, hd =>
    have hr1 := hall r1 (by simp)
    have hr0 := hall r0 (by simp)
    have hg1 := hall g1 (by simp)
    have hg0 := hall g0 (by simp)
    have hb1 := hall b1 (by simp)
    have hb0 := hall b0 (by simp)
    obtain ⟨hr, hrlt⟩ := hexByte_spec r1 r0 hr1 hr0
    obtain ⟨hg, hglt⟩ := hexByte_spec g1 g0 hg1 hg0
    obtain ⟨hb, hblt⟩ := hexByte_spec b1 b0 hb1 hb0
    generalize hR : 16 * digitValue r1 + digitValue r0 = r at hr hrlt
    generalize hG : 16 * digitValue g1 + digitValue g0 = g at hg hglt
    generalize hB : 16 * digitValue b1 + digitValue b0 = b at hb hblt
    obtain ⟨hpr, hpg, hpb, hplt⟩ := pixel_bytes r g b hrlt hglt hblt
    refine ⟨⟨(r : ℚ) / 255, (g : ℚ) / 255, (b : ℚ) / 255, 1, r * 65536 + g * 256 + b⟩,
      ?_, unit_fraction_bounds r hrlt, unit_fraction_bounds g hglt,
      unit_fraction_bounds b hblt, ⟨by norm_num, by norm_num⟩, hplt, ?_, ?_, ?_, ?_, ?_⟩
    · simp [drw_clr_create, hd, hr, hg, hb]
    · simp only [rgbBytes, hd, hpr, hpg, hpb, hR, hG, hB]
    · simp only [hpr, hpg, hpb]
      rw [← hR, ← hG, ← hB]
      simp only [formatColor, lowercase, hd, toHex2_spec r1 r0 hr1 hr0,
        toHex2_spec g1 g0 hg1 hg0, toHex2_spec b1 b0 hb1 hb0]
      rfl
    · show (r : ℚ) / 255 * 255 = ((pixelRed (r * 65536 + g * 256 + b) : ℕ) : ℚ)
      rw [hpr]; field_simp
    · show (g : ℚ) / 255 * 255 = ((pixelGreen (r * 65536 + g * 256 + b) : ℕ) : ℚ)
      rw [hpg]; field_simp
    · show (b : ℚ) / 255 * 255 = ((pixelBlue (r * 65536 + g * 256 + b) : ℕ) : ℚ)
      rw [hpb]; field_simp

/-- Witness for C6 at the string "#1a2B3c", whose bytes are 0x1a = 26,
0x2B = 43 and 0x3c = 60, together with the values computed for it and for the
two configured colours. -/
theorem C6_clr_create_normalised_roundtrip_witness :
    isHexColor "#1a2B3c" = true ∧
    (∃ c : Clr,
      drw_clr_create "#1a2B3c" = some c ∧
      (0 ≤ c.r ∧ c.r ≤ 1) ∧ (0 ≤ c.g ∧ c.g ≤ 1) ∧
      (0 ≤ c.b ∧ c.b ≤ 1) ∧ (0 ≤ c.a ∧ c.a ≤ 1) ∧
      c.pixel < 2 ^ 24 ∧
      rgbBytes "#1a2B3c" = some (pixelRed c.pixel, pixelGreen c.pixel, pixelBlue c.pixel) ∧
      formatColor (pixelRed c.pixel) (pixelGreen c.pixel) (pixelBlue c.pixel)
        = lowercase "#1a2B3c" ∧
      c.r * 255 = pixelRed c.pixel ∧ c.g * 255 = pixelGreen c.pixel ∧
      c.b * 255 = pixelBlue c.pixel) ∧
    rgbBytes "#1a2B3c" = some (26, 43, 60) ∧
    lowercase "#1a2B3c" = "#1a2b3c" ∧
    formatColor 26 43 60 = "#1a2b3c" ∧
    (drw_clr_create "#1a2B3c").map Clr.pixel = some 0x1a2B3c ∧
    (drw_clr_create "#1a2B3c").map (fun c => (c.r * 255, c.g * 255, c.b * 255))
      = some (26, 43, 60) ∧
    (drw_clr_create "#FFFFFF").map Clr.pixel = some 0xFFFFFF ∧
    (drw_clr_create "#000000").map Clr.pixel = some 0x000000 :=
  ⟨by decide, C6_clr_create_normalised_roundtrip "#1a2B3c" (by decide),
   by decide, by decide, by decide, by decide,
   by
    rw [show drw_clr_create "#1a2B3c"
        = some ⟨((26 : ℕ) : ℚ) / 255, ((43 : ℕ) : ℚ) / 255, ((60 : ℕ) : ℚ) / 255, 1, 1715004⟩
        from rfl]
    norm_num,
   by decide, by decide⟩

/-- C7: `usablewidth` and `usableheight` both equal 3/4, so each is strictly
greater than 0 and at most 1 and the usable part of a screen dimension never
exceeds that dimension; and `linespacing` is at least 1. -/
theorem C7_usable_fractions_and_linespacing :
    usablewidth.toRat = 3 / 4 ∧ usableheight.toRat = 3 / 4 ∧
    (0 < usablewidth.toRat ∧ usablewidth.toRat ≤ 1) ∧
    (0 < usableheight.toRat ∧ usableheight.toRat ≤ 1) ∧
    1 ≤ linespacing.toRat ∧
    (∀ w : ℚ, 0 ≤ w → usablewidth.toRat * w ≤ w ∧ usableheight.toRat * w ≤ w) := by
  have hw : usablewidth = ⟨12582912, -24⟩ := by decide
  have hh : usableheight = ⟨12582912, -24⟩ := by decide
  have hl : linespacing = ⟨11744051, -23⟩ := by decide
  have hwr : usablewidth.toRat = 3 / 4 := by
    rw [hw]; norm_num [BinFloat.toRat]
  have hhr : usableheight.toRat = 3 / 4 := by
    rw [hh]; norm_num [BinFloat.toRat]
  have hlr : linespacing.toRat = 11744051 / 8388608 := by
    rw [hl]; norm_num [BinFloat.toRat]
  refine ⟨hwr, hhr, ?_, ?_, ?_, ?_⟩
  · rw [hwr]; norm_num
  · rw [hhr]; norm_num
  · rw [hlr]; norm_num
  · intro w hw0
    rw [hwr, hhr]
    constructor <;> linarith

/-- Witness for C7 at a screen dimension of 1920. -/
theorem C7_usable_fractions_and_linespacing_witness :
    usablewidth.toRat * 1920 ≤ 1920 ∧ usableheight.toRat * 1920 ≤ 1920 :=
  C7_usable_fractions_and_linespacing.2.2.2.2.2 1920 (by norm_num)

/-- C8: in exact arithmetic `FONTSZ(0) = 10`; `FONTSZ` is strictly increasing
on its domain, `FONTSZ(x) < FONTSZ(x+1)` for every `x < NUMFONTSCALES - 1`;
hence the 42 font scales are positive and pairwise distinct. -/
theorem C8_fontsz_strictly_increasing :
    NUMFONTSCALES - 1 = 41 ∧ FONTSZ 0 = 10 ∧
    (∀ x : Nat, x < NUMFONTSCALES - 1 → FONTSZ x < FONTSZ (x + 1)) ∧
    (∀ x : Nat, x < NUMFONTSCALES → 0 < FONTSZ x) ∧
    (∀ x y : Nat, x < NUMFONTSCALES → y < NUMFONTSCALES → x ≠ y →
      FONTSZ x ≠ FONTSZ y) := by
  have hN : NUMFONTSCALES = 42 := rfl
  refine ⟨rfl, ?_, ?_, ?_, ?_⟩
  · rw [FONTSZ_eq_fontszNat]; decide
  · intro x hx
    rw [FONTSZ_eq_fontszNat, FONTSZ_eq_fontszNat]
    exact_mod_cast fontszNat_step ⟨x, by omega⟩
  · intro x hx
    rw [FONTSZ_eq_fontszNat]
    exact_mod_cast fontszNat_pos ⟨x, by omega⟩
  · intro x y hx hy hxy
    rw [FONTSZ_eq_fontszNat, FONTSZ_eq_fontszNat]
    rcases Nat.lt_or_gt_of_ne hxy with hlt | hgt
    · have := fontszNat_strictMono x y hlt (by omega)
      exact_mod_cast Nat.ne_of_lt this
    · have := fontszNat_strictMono y x hgt (by omega)
      exact_mod_cast (Nat.ne_of_lt this).symm

/-- Witness for C8 at the last step, 40 to 41, and at the pair 11, 12. -/
theorem C8_fontsz_strictly_increasing_witness :
    FONTSZ 40 < FONTSZ 41 ∧ 0 < FONTSZ 41 ∧ FONTSZ 11 ≠ FONTSZ 12 :=
  ⟨C8_fontsz_strictly_increasing.2.2.1 40 (by decide),
   C8_fontsz_strictly_increasing.2.2.2.1 41 (by decide),
   C8_fontsz_strictly_increasing.2.2.2.2 11 12 (by decide) (by decide) (by decide)⟩

/-- C9: there are 18 `MAC_KEY_*` constants, pairwise distinct, and `shortcuts`
has 18 entries; every constant is the key code of exactly one entry, every
entry's key code is one of the constants, the key codes of the table are a
rearrangement of the constants, and a key code outside the constants matches
no entry. -/
theorem C9_shortcuts_complete_for_mac_keys :
    macKeys.length = 18 ∧ shortcuts.length = 18 ∧ macKeys.Nodup ∧
    (∀ k ∈ macKeys, (matchesKey shortcuts k).length = 1) ∧
    (∀ s ∈ shortcuts, s.keycode ∈ macKeys) ∧
    (shortcuts.map Shortcut.keycode).Perm macKeys ∧
    (∀ key : Nat, key ∉ macKeys →
      lookupKey shortcuts key = none ∧ matchesKey shortcuts key = []) := by
  have hmem : ∀ s ∈ shortcuts, s.keycode ∈ macKeys := by decide
  refine ⟨rfl, rfl, by decide, by decide, hmem, by decide, ?_⟩
  intro key hkey
  have hne : ∀ s ∈ shortcuts, s.keycode ≠ key := by
    intro s hs heq
    exact hkey (heq ▸ hmem s hs)
  refine ⟨lookupKey_eq_none shortcuts key hne, ?_⟩
  unfold matchesKey
  rw [List.filter_eq_nil_iff]
  intro s hs
  simpa using hne s hs

/-- Witness for C9 at the constant `MAC_KEY_R`, at the last table entry and at
the unbound key code 0x00. -/
theorem C9_shortcuts_complete_for_mac_keys_witness :
    (matchesKey shortcuts MAC_KEY_R).length = 1 ∧
    MAC_KEY_R ∈ macKeys ∧
    (lookupKey shortcuts 0x00 = none ∧ matchesKey shortcuts 0x00 = []) :=
  ⟨C9_shortcuts_complete_for_mac_keys.2.2.2.1 MAC_KEY_R (by decide),
   C9_shortcuts_complete_for_mac_keys.2.2.2.2.1 ⟨MAC_KEY_R, Func.reload, ⟨0⟩⟩ (by decide),
   C9_shortcuts_complete_for_mac_keys.2.2.2.2.2.2 0x00 (by decide)⟩

/-- C10: `mshortcuts` has four entries, exactly one per `MacMouseButton`
value, with pairwise distinct button identifiers 0, 1, 10, 11; the first-match
scan gives left -> advance +1, right -> advance -1, scroll up -> advance -1,
scroll down -> advance +1; and the deltas of the table sum to 0. -/
theorem C10_mouse_table :
    mshortcuts.length = 4 ∧
    mshortcuts.map Mousekey.button = [0, 1, 10, 11] ∧
    (mshortcuts.map Mousekey.button).Nodup ∧
    (∀ b : MacMouseButton, (matchesButton mshortcuts b.code).length = 1) ∧
    mshortcuts.map Mousekey.button = allMouseButtons.map MacMouseButton.code ∧
    (∀ b : MacMouseButton, b ∈ allMouseButtons) ∧
    lookupButton mshortcuts MacMouseButton.MacMouseLeft.code
      = some ⟨0, Func.advance, ⟨1⟩⟩ ∧
    lookupButton mshortcuts MacMouseButton.MacMouseRight.code
      = some ⟨1, Func.advance, ⟨-1⟩⟩ ∧
    lookupButton mshortcuts MacMouseButton.MacMouseScrollUp.code
      = some ⟨10, Func.advance, ⟨-1⟩⟩ ∧
    lookupButton mshortcuts MacMouseButton.MacMouseScrollDown.code
      = some ⟨11, Func.advance, ⟨1⟩⟩ ∧
    (mshortcuts.map (fun m => m.arg.i)).sum = 0 ∧
    (mshortcuts.filter (fun m => decide (m.arg.i = 1))).length = 2 ∧
    (mshortcuts.filter (fun m => decide (m.arg.i = -1))).length = 2 := by
  refine ⟨rfl, rfl, by decide, ?_, rfl, ?_, rfl, rfl, rfl, rfl, by decide,
    by decide, by decide⟩
  · intro b; cases b <;> decide
  · intro b; cases b <;> decide

end Sent
